import Mathlib

/-!
Shallow embedding of the go-router schema-generation core:
the type registry (metadata/types.go), status-code conversion,
the schema builder (openapi SchemaFromType and example generation),
the schema collector, the reference resolver and the document assembler
(openapi/generator.go), together with theorems settling the claims
about this code.

Go maps are modelled as association lists with newest-binding-first
lookup; Go pointer sharing inside the registry map is modelled by an
entry arena (`entries`) plus a string-to-slot index, so that two keys
pointing at the same `*TypeRegistryEntry` are two index pairs with the
same slot number.
-/

namespace GoRouter

/-- Lookup in an association list modelling a Go map: the most recent
binding (list head) wins. -/
def mapLookup {α : Type} : List (String × α) → String → Option α
  | [], _ => none
  | p :: rest, k => if p.1 = k then some p.2 else mapLookup rest k

/-- Go map assignment `m[k] = v`: the new binding shadows older ones. -/
def mapInsert {α : Type} (m : List (String × α)) (k : String) (v : α) : List (String × α) :=
  (k, v) :: m

/-- Go `delete(m, k)`: removes every binding for `k`. -/
def mapErase {α : Type} : List (String × α) → String → List (String × α)
  | [], _ => []
  | p :: rest, k => if p.1 = k then mapErase rest k else p :: mapErase rest k

/-- Key membership in a modelled Go map. -/
def mapMem {α : Type} (m : List (String × α)) (k : String) : Prop :=
  (mapLookup m k).isSome = true

instance {α : Type} (m : List (String × α)) (k : String) : Decidable (mapMem m k) := by
  unfold mapMem; infer_instance

/-- Single-character replacement, the effect of Go
`strings.ReplaceAll(s, a, b)` for one-character `a`, `b`. -/
def replaceAllChar (s : String) (a b : Char) : String :=
  ⟨s.data.map (fun c => if c = a then b else c)⟩

/-- `SanitizeSchemaName` from metadata/types.go: replace each of
`.`, `/`, `-` by `_` (three successive ReplaceAll calls). -/
def SanitizeSchemaName (s : String) : String :=
  replaceAllChar (replaceAllChar (replaceAllChar s '.' '_') '/' '_') '-' '_'

/-! ## strconv: Itoa / Atoi, as used by StatusCodeToString/FromString -/

/-- The character for a decimal digit. -/
def digitChar (n : Nat) : Char := Char.ofNat (48 + n)

/-- Decimal digit list of a natural number, most significant first. -/
def natDigits (n : Nat) : List Char :=
  if h : n < 10 then [digitChar n]
  else natDigits (n / 10) ++ [digitChar (n % 10)]
  decreasing_by
    exact Nat.div_lt_self (by omega) (by omega)

/-- `strconv.Itoa`: decimal string of an integer, `-` sign for negatives. -/
def itoa (n : Int) : String :=
  if n < 0 then ⟨'-' :: natDigits n.natAbs⟩ else ⟨natDigits n.natAbs⟩

/-- Numeric value of a decimal digit character, if it is one. -/
def digitVal (c : Char) : Option Nat :=
  if 48 ≤ c.toNat ∧ c.toNat ≤ 57 then some (c.toNat - 48) else none

/-- One step of decimal parsing. -/
def parseStep (acc : Option Nat) (c : Char) : Option Nat :=
  match acc, digitVal c with
  | some a, some d => some (a * 10 + d)
  | _, _ => none

/-- Parse a non-empty all-digit character list as a natural number. -/
def parseDigits (l : List Char) : Option Nat :=
  match l with
  | [] => none
  | _ => l.foldl parseStep (some 0)

/-- `strconv.Atoi`: optional sign, then decimal digits; `none` models the
format error on any other input. -/
def atoi (s : String) : Option Int :=
  match s.data with
  | [] => none
  | c :: rest =>
    if c = '-' then (parseDigits rest).map (fun n : Nat => -(n : Int))
    else if c = '+' then (parseDigits rest).map (fun n : Nat => (n : Int))
    else (parseDigits (c :: rest)).map (fun n : Nat => (n : Int))

/-- `StatusCodeToString` from the metadata package (strconv.Itoa). -/
def StatusCodeToString (code : Int) : String := itoa code

/-- `StatusCodeFromString` from the metadata package (strconv.Atoi);
`none` models the returned error. -/
def StatusCodeFromString (code : String) : Option Int := atoi code

/-! ## The type registry (metadata/types.go) -/

/-- `TypeRegistryEntry` from metadata/types.go. -/
structure TypeRegistryEntry where
  name : String
  pkgPath : String
  count : Nat
  finalName : String
deriving DecidableEq

instance : Inhabited TypeRegistryEntry := ⟨⟨"", "", 0, ""⟩⟩

/-- The registry state: an arena of entries plus the `types` map sending
keys to arena slots.  Two keys mapping to the same slot model two Go map
keys holding the same `*TypeRegistryEntry`. -/
structure Registry where
  entries : List TypeRegistryEntry
  index : List (String × Nat)
deriving DecidableEq

/-- The freshly initialised global registry. -/
def emptyRegistry : Registry := ⟨[], []⟩

/-- `RegisterType` from metadata/types.go, with the registry state passed
explicitly: returns the assigned display name and the new state.
`pkgPath`/`name` are `t.PkgPath()`/`t.Name()` of the registered type. -/
def RegisterType (r : Registry) (pkgPath name : String) : String × Registry :=
  let fullID := pkgPath ++ "." ++ name
  match mapLookup r.index fullID with
  | some i =>
      -- seen this exact type before: bump the count, return its name
      let e := r.entries.getD i default
      (e.finalName, { r with entries := r.entries.set i { e with count := e.count + 1 } })
  | none =>
    match mapLookup r.index name with
    | some i =>
        -- collision with the same base name from another package
        let e := r.entries.getD i default
        let step1 : Registry :=
          if e.count = 1 ∧ e.finalName = name then
            let origFullID := e.pkgPath ++ "." ++ e.name
            let e' := { e with finalName := SanitizeSchemaName (e.pkgPath ++ "_" ++ e.name) }
            { entries := r.entries.set i e',
              index := mapInsert (mapErase (mapInsert r.index origFullID i) name) (pkgPath ++ "." ++ name) (r.entries.length) }
          else
            { r with index := mapInsert r.index (pkgPath ++ "." ++ name) (r.entries.length) }
        let qualifiedName := SanitizeSchemaName (pkgPath ++ "_" ++ name)
        (qualifiedName,
         { step1 with entries := step1.entries ++ [⟨name, pkgPath, 1, qualifiedName⟩] })
    | none =>
        -- first sighting: key by simple name and also by full id
        (name,
         { entries := r.entries ++ [⟨name, pkgPath, 1, name⟩],
           index := mapInsert (mapInsert r.index name r.entries.length) fullID r.entries.length })

/-- Occurrence count currently recorded for a TypeIdentity (0 if the
identity has no entry under its full key). -/
def countOf (r : Registry) (pkgPath name : String) : Nat :=
  match mapLookup r.index (pkgPath ++ "." ++ name) with
  | some i => (r.entries.getD i default).count
  | none => 0

/-- Final assigned display name currently recorded for a TypeIdentity. -/
def finalNameOf (r : Registry) (pkgPath name : String) : Option String :=
  match mapLookup r.index (pkgPath ++ "." ++ name) with
  | some i => some (r.entries.getD i default).finalName
  | none => none

/-- Well-formedness of the registry state: every index slot is in range.
Go guarantees this because map values are live entry pointers. -/
def RegistryWF (r : Registry) : Prop :=
  ∀ p ∈ r.index, p.2 < r.entries.length

/-! ## Example values (Go interface values in examples) -/

/-- Untyped Go example values (JSON-like), as stored in `Schema.Example`:
booleans, ints, float literals (as exact rationals), strings, arrays and
objects. -/
inductive Value where
  | bool (b : Bool)
  | int (n : Int)
  | double (q : Rat)
  | str (s : String)
  | arr (l : List Value)
  | obj (l : List (String × Value))

/-- The canonical timestamp literal used for time.Time examples. -/
def timestamp : String := "2025-02-22T08:36:06.224266+01:00"

/-! ## Schema (the `Schema` struct of metadata/types.go / package openapi) -/

/-- The fields of the Go `Schema` struct, parametrised by the schema type
itself so the recursive knot can be tied below.  `typ` is Go `Type`,
`exampleVal` is Go `Example`, `ref` is Go `Ref` (`$ref`). -/
structure SchemaCore (σ : Type) where
  typ : String
  ref : String
  format : String
  description : String
  items : Option σ
  properties : Option (List (String × σ))
  exampleVal : Option Value
  required : List String
  minLength : Option Int
  maxLength : Option Int
  minimum : Option Rat
  maximum : Option Rat
  enum : List Value
  allOf : List σ
  oneOf : List σ
  anyOf : List σ
  nullable : Bool
  additionalProperties : Option σ
  typeName : String

/-- The Go `Schema` struct. -/
inductive Schema where
  | mk (core : SchemaCore Schema)

def Schema.core : Schema → SchemaCore Schema
  | .mk c => c

def Schema.typ (s : Schema) : String := s.core.typ
def Schema.ref (s : Schema) : String := s.core.ref
def Schema.format (s : Schema) : String := s.core.format
def Schema.items (s : Schema) : Option Schema := s.core.items
def Schema.properties (s : Schema) : Option (List (String × Schema)) := s.core.properties
def Schema.exampleVal (s : Schema) : Option Value := s.core.exampleVal
def Schema.required (s : Schema) : List String := s.core.required
def Schema.typeName (s : Schema) : String := s.core.typeName

/-- The zero value of the Go `Schema` struct. -/
def emptySchema : Schema :=
  .mk ⟨"", "", "", "", none, none, none, [], none, none, none, none, [], [], [], [], false, none, ""⟩

/-- `Schema{Ref: r}`: a pure reference node, no other field set. -/
def refSchema (r : String) : Schema :=
  .mk { emptySchema.core with ref := r }

/-- A map from component names to schemas (`map[string]Schema`). -/
abbrev SchemaMap := List (String × Schema)

/-! ## Go types as seen through reflection -/

/-- The classes of `reflect.Kind` distinguished by the schema builder:
bool, the integer kinds, the float kinds, string, and everything else
(the generic fallback). -/
inductive GoKind where
  | boolK
  | intK
  | floatK
  | stringK
  | otherK
deriving DecidableEq

/-- A struct field as seen by reflection: name, `json:` tag, `validate:`
tag, exportedness, and its type. -/
structure GoFieldCore (τ : Type) where
  name : String
  jsonTag : String
  validateTag : String
  exported : Bool
  typ : τ

/-- A Go type descriptor: pointers, structs (with name, package path,
`String()` representation and fields), slices, arrays, and primitives. -/
inductive GoType where
  | ptrT (elem : GoType)
  | structT (name pkgPath strRepr : String) (fields : List (GoFieldCore GoType))
  | sliceT (elem : GoType)
  | arrayT (len : Nat) (elem : GoType)
  | primT (kind : GoKind) (name : String)

abbrev GoField := GoFieldCore GoType

/-- `t.String()` of reflection. -/
def goString : GoType → String
  | .ptrT e => "*" ++ goString e
  | .structT _ _ srep _ => srep
  | .sliceT e => "[]" ++ goString e
  | .arrayT n e => "[" ++ toString n ++ "]" ++ goString e
  | .primT _ nm => nm

/-- Whether the type's reflect kind is `reflect.String`. -/
def isStringKind : GoType → Bool
  | .primT .stringK _ => true
  | _ => false

/-- `getGoTypeSchema` from part_005: map a primitive kind to a schema
type string, defaulting to "object". -/
def getGoTypeSchema : GoType → String
  | .primT .boolK _ => "boolean"
  | .primT .intK _ => "integer"
  | .primT .floatK _ => "number"
  | .primT .stringK _ => "string"
  | _ => "object"

/-- `getExampleValue` from part_005: canned examples for primitives. -/
def getExampleValue : GoType → Option Value
  | .primT .boolK _ => some (.bool true)
  | .primT .intK _ => some (.int 42)
  | .primT .floatK _ => some (.double (314 / 100 : Rat))
  | .primT .stringK _ => some (.str "example")
  | _ => none

/-- Go `strings.HasPrefix`. -/
def hasPrefixGo (p s : String) : Bool := p.data.isPrefixOf s.data

/-- Go `strings.TrimPrefix`. -/
def trimPrefixGo (p s : String) : String :=
  if hasPrefixGo p s then ⟨s.data.drop p.data.length⟩ else s

/-- The serialized property name of a field: the `json:` tag up to the
first comma, `-` meaning "skip", empty meaning "use the field name"
(the logic repeated in getStructProperties and generateExample). -/
def fieldJsonName (fieldName tag : String) : Option String :=
  let base : String := ⟨tag.data.takeWhile (fun c => c ≠ ',')⟩
  if base = "-" then none
  else some (if base = "" then fieldName else base)

/-- Go `strings.Split` with a one-character separator, on the char
list. -/
def splitCharAux (sep : Char) : List Char → List Char → List String
  | [], acc => [⟨acc.reverse⟩]
  | c :: rest, acc =>
    if c = sep then ⟨acc.reverse⟩ :: splitCharAux sep rest []
    else splitCharAux sep rest (c :: acc)

/-- Go `strings.Split(s, sep)` for a one-character separator. -/
def splitGo (s : String) (sep : Char) : List String :=
  splitCharAux sep s.data []

/-- `getValidationRules` from part_005: scan the comma-separated
`validate:` tag for `required`, `min=N`, `max=N`.  Returns
(required, minLength, maxLength, minimum). -/
def getValidationRules (fieldType : GoType) (tag : String) :
    Bool × Option Int × Option Int × Option Rat :=
  if tag = "" then (false, none, none, none)
  else
    (splitGo tag ',').foldl
      (fun st rule =>
        if rule = "required" then (true, st.2.1, st.2.2.1, st.2.2.2)
        else
          let st1 :=
            if hasPrefixGo "min=" rule then
              match atoi (trimPrefixGo "min=" rule) with
              | some v =>
                if isStringKind fieldType then (st.1, some v, st.2.2.1, st.2.2.2)
                else (st.1, st.2.1, st.2.2.1, some (v : Rat))
              | none => st
            else st
          if hasPrefixGo "max=" rule then
            match atoi (trimPrefixGo "max=" rule) with
            | some v =>
              if isStringKind fieldType then (st1.1, st1.2.1, some v, st1.2.2.2)
              else st1
            | none => st1
          else st1)
      (false, none, none, none)

/-! ## Example generation (`generateExample` of part_005) -/

mutual

/-- `generateExample`: a plain example value for a type; `none` (Go nil)
unless the type is a struct. -/
def generateExample (t : GoType) : Option Value :=
  match t with
  | .structT _ _ _ fields => some (.obj (exampleFields fields []))
  | _ => none
termination_by (sizeOf t, 0)

/-- The example value computed for one field in `generateExample`'s
loop (the inner switch on the field's kind). -/
def exampleValueOfType (t : GoType) : Option Value :=
  match t with
  | .structT nm pk srep flds =>
    if srep = "time.Time" then some (.str timestamp)
    else generateExample (.structT nm pk srep flds)
  | .sliceT e => (generateExample e).map (fun x => .arr [x])
  | .arrayT _ e => (generateExample e).map (fun x => .arr [x])
  | _ => getExampleValue t
termination_by (sizeOf t, 1)

/-- The loop of `generateExample` over a struct's fields, accumulating
the example object. -/
def exampleFields (fields : List GoField) (m : List (String × Value)) :
    List (String × Value) :=
  match fields with
  | [] => m
  | ⟨fnm, jt, _, ex, ty⟩ :: rest =>
    if ex = false then exampleFields rest m
    else
      match fieldJsonName fnm jt with
      | none => exampleFields rest m
      | some nm =>
        match exampleValueOfType ty with
        | some v => exampleFields rest (mapInsert m nm v)
        | none => exampleFields rest m
termination_by (sizeOf fields, 2)

end

/-! ## Schema construction (`SchemaFromType` of part_005) -/

mutual

/-- `SchemaFromType` from part_005 (the version that registers struct
types in the global type registry), with the registry threaded
explicitly. -/
def SchemaFromType (t : GoType) (r : Registry) : Schema × Registry :=
  if goString t = "time.Time" then
    (.mk { emptySchema.core with
        typ := "string", format := "date-time",
        exampleVal := some (.str timestamp), typeName := "time.Time" }, r)
  else
    match t with
    | .ptrT e => SchemaFromType e r
    | .structT nm pk _ fields =>
      let sp := getStructProperties fields r
      let reg := RegisterType sp.2.2 pk nm
      (.mk { emptySchema.core with
          typ := "object", properties := some sp.1, required := sp.2.1,
          exampleVal := generateExample t, typeName := reg.1 }, reg.2)
    | .sliceT e =>
      let is := SchemaFromType e r
      if is.1.typ = "object" ∧ is.1.typeName ≠ "" then
        (.mk { emptySchema.core with
            typ := "array",
            items := some (refSchema ("#/components/schemas/" ++ SanitizeSchemaName is.1.typeName)),
            typeName := "[]" ++ is.1.typeName }, is.2)
      else
        (.mk { emptySchema.core with
            typ := "array", items := some is.1,
            typeName := "[]" ++ is.1.typeName }, is.2)
    | .arrayT _ e =>
      let is := SchemaFromType e r
      if is.1.typ = "object" ∧ is.1.typeName ≠ "" then
        (.mk { emptySchema.core with
            typ := "array",
            items := some (refSchema ("#/components/schemas/" ++ SanitizeSchemaName is.1.typeName)),
            typeName := "[]" ++ is.1.typeName }, is.2)
      else
        (.mk { emptySchema.core with
            typ := "array", items := some is.1,
            typeName := "[]" ++ is.1.typeName }, is.2)
    | .primT _ nm =>
      (.mk { emptySchema.core with
          typ := getGoTypeSchema t, exampleVal := getExampleValue t,
          typeName := nm }, r)
termination_by (sizeOf t, 0)

/-- `getStructProperties` from part_005: properties map, required list
and the threaded registry. -/
def getStructProperties (fields : List GoField) (r : Registry) :
    (List (String × Schema)) × (List String) × Registry :=
  match fields with
  | [] => ([], [], r)
  | ⟨fnm, jt, vt, ex, ty⟩ :: rest =>
    if ex = false then getStructProperties rest r
    else
      match fieldJsonName fnm jt with
      | none => getStructProperties rest r
      | some nm =>
        let vr := getValidationRules ty vt
        let sp := SchemaFromType ty r
        let schema : Schema := .mk { sp.1.core with
          minLength := vr.2.1, maxLength := vr.2.2.1, minimum := vr.2.2.2 }
        let restRes := getStructProperties rest sp.2
        (restRes.1 ++ [(nm, schema)],
         (if vr.1 then nm :: restRes.2.1 else restRes.2.1),
         restRes.2.2)
termination_by (sizeOf fields, 1)

end

/-! ## Schema collector and reference resolver (openapi/generator.go) -/

/-- `generateSchemaName` from openapi/generator.go: the schema's
originating type name, with a leading `[]` marker stripped; empty when
there is no type name. -/
def generateSchemaName (s : Schema) : String :=
  if s.typeName ≠ "" then
    if hasPrefixGo "[]" s.typeName then trimPrefixGo "[]" s.typeName
    else s.typeName
  else ""

mutual

/-- `collectSchemaComponents` from openapi/generator.go: register every
object-with-properties node under its generated name, recursing into
properties and array items. -/
def collectSchemaComponents (m : SchemaMap) (s : Schema) : SchemaMap :=
  match s with
  | .mk ⟨typ, rf, fmt, desc, items, props, ex, req, mnl, mxl, mn, mx, en, ao, oo, ano, nl, ap, tn⟩ =>
    let s0 : Schema := .mk ⟨typ, rf, fmt, desc, items, props, ex, req, mnl, mxl, mn, mx, en, ao, oo, ano, nl, ap, tn⟩
    let m1 :=
      if typ = "object" then
        match props with
        | some l =>
          let name := generateSchemaName s0
          let m' := if name ≠ "" then mapInsert m name s0 else m
          collectProps m' l
        | none => m
      else m
    match items with
    | some it => collectSchemaComponents m1 it
    | none => m1
termination_by (sizeOf s, 0)

/-- The loop of `collectSchemaComponents` over a properties map. -/
def collectProps (m : SchemaMap) (l : List (String × Schema)) : SchemaMap :=
  match l with
  | [] => m
  | (_, sc) :: rest => collectProps (collectSchemaComponents m sc) rest
termination_by (sizeOf l, 1)

end

mutual

/-- The sequence of (name, schema) registrations performed by
`collectSchemaComponents`, in order; used to factor proofs. -/
def schemaInserts (s : Schema) : List (String × Schema) :=
  match s with
  | .mk ⟨typ, rf, fmt, desc, items, props, ex, req, mnl, mxl, mn, mx, en, ao, oo, ano, nl, ap, tn⟩ =>
    let s0 : Schema := .mk ⟨typ, rf, fmt, desc, items, props, ex, req, mnl, mxl, mn, mx, en, ao, oo, ano, nl, ap, tn⟩
    (if typ = "object" then
      match props with
      | some l =>
        (if generateSchemaName s0 ≠ "" then [(generateSchemaName s0, s0)] else []) ++
          propsInserts l
      | none => []
     else []) ++
    (match items with
     | some it => schemaInserts it
     | none => [])
termination_by (sizeOf s, 0)

/-- `schemaInserts` over a properties map. -/
def propsInserts (l : List (String × Schema)) : List (String × Schema) :=
  match l with
  | [] => []
  | (_, sc) :: rest => schemaInserts sc ++ propsInserts rest
termination_by (sizeOf l, 1)

end

/-- Apply a sequence of map registrations in order. -/
def applyInserts {α : Type} (m : List (String × α)) (ops : List (String × α)) :
    List (String × α) :=
  ops.foldl (fun acc p => mapInsert acc p.1 p.2) m

/-- The value the last registration in `ops` records for key `k`. -/
def opsLookup {α : Type} : List (String × α) → String → Option α
  | [], _ => none
  | p :: rest, k =>
    match opsLookup rest k with
    | some v => some v
    | none => if p.1 = k then some p.2 else none

/-- `convertSchemaToRef` from openapi/generator.go: replace a registered
object by a reference, or the element of an array by its converted
form; anything else is returned unchanged. -/
def convertSchemaToRef (tbl : SchemaMap) (s : Schema) : Schema :=
  match s with
  | .mk ⟨typ, rf, fmt, desc, items, props, ex, req, mnl, mxl, mn, mx, en, ao, oo, ano, nl, ap, tn⟩ =>
    let s0 : Schema := .mk ⟨typ, rf, fmt, desc, items, props, ex, req, mnl, mxl, mn, mx, en, ao, oo, ano, nl, ap, tn⟩
    if typ = "object" ∧ props.isSome = true ∧ generateSchemaName s0 ≠ "" ∧
        ((mapLookup tbl (generateSchemaName s0)).getD emptySchema).properties.isSome = true then
      refSchema ("#/components/schemas/" ++ generateSchemaName s0)
    else
      match items with
      | some it =>
        if typ = "array" then
          .mk ⟨typ, rf, fmt, desc, some (convertSchemaToRef tbl it), props, ex, req, mnl,
            mxl, mn, mx, en, ao, oo, ano, nl, ap, tn⟩
        else s0
      | none => s0

/-- Reachability inside a schema tree, through array items and object
properties. -/
inductive Reach : Schema → Schema → Prop where
  | refl (s : Schema) : Reach s s
  | items {s t u : Schema} : s.items = some t → Reach t u → Reach s u
  | prop {s t u : Schema} {l : List (String × Schema)} {nm : String} :
      s.properties = some l → (nm, t) ∈ l → Reach t u → Reach s u

/-! ## The generator and document assembly (openapi/generator.go) -/

/-- The `Contact` block of the info section. -/
structure Contact where
  name : String
  url : String
  email : String

/-- The `Info` block of the document. -/
structure Info where
  title : String
  description : String
  version : String
  termsOfService : String
  contact : Contact

/-- A server entry. -/
structure Server where
  url : String
  description : String

/-- A security scheme definition (`inLoc` is Go `In`). -/
structure SecurityScheme where
  typ : String
  scheme : String
  name : String
  inLoc : String
  description : String

/-- A content entry: schema plus optional example (`MediaType`). -/
structure MediaType where
  schema : Schema
  exampleVal : Option Value

/-- A request body: description, required flag and content map. -/
structure RequestBody where
  description : String
  required : Bool
  content : List (String × MediaType)

/-- A response header. -/
structure Header where
  description : String
  schema : Schema

/-- A response: description, optional content map (Go nil vs present)
and optional headers. -/
structure Response where
  description : String
  content : Option (List (String × MediaType))
  headers : Option (List (String × Header))

/-- A parameter (`inLoc` is Go `In`). -/
structure Parameter where
  name : String
  inLoc : String
  required : Bool
  description : String
  schema : Schema
  exampleVal : Option Value

/-- A security requirement: scheme name to required scopes. -/
abbrev SecurityRequirement := List (String × List String)

/-- `RouteMetadata` from openapi/generator.go: the route descriptor
consumed by document generation. -/
structure RouteMetadata where
  method : String
  path : String
  operationID : String
  summary : String
  description : String
  tags : List String
  parameters : List Parameter
  requestBody : Option RequestBody
  responses : List (String × Response)
  security : List SecurityRequirement

/-- An operation record of the assembled document. -/
structure Operation where
  operationID : String
  summary : String
  description : String
  tags : List String
  parameters : List Parameter
  requestBody : Option RequestBody
  responses : List (String × Response)
  security : List SecurityRequirement

/-- A path item: one slot per supported method. -/
structure PathItem where
  get : Option Operation
  post : Option Operation
  put : Option Operation
  delete : Option Operation
  patch : Option Operation

/-- The components section. -/
structure Components where
  securitySchemes : List (String × SecurityScheme)
  schemas : SchemaMap

/-- The assembled OpenAPI document. -/
structure Spec where
  openapi : String
  info : Info
  servers : List Server
  paths : List (String × PathItem)
  components : Components

/-- The generator state (`Generator` of openapi/generator.go). -/
structure Generator where
  info : Info
  securitySchemes : List (String × SecurityScheme)
  servers : List Server
  schemas : SchemaMap
  routeMetadata : List RouteMetadata

/-- `NewGenerator`: empty schema table, no schemes, no servers. -/
def NewGenerator (info : Info) : Generator :=
  ⟨info, [], [], [], []⟩

/-- Fold `collectSchemaComponents` over one content map. -/
def contentFold (m : SchemaMap) (c : List (String × MediaType)) : SchemaMap :=
  c.foldl (fun acc p => collectSchemaComponents acc p.2.schema) m

/-- Fold `collectSchemaComponents` over each response's content (the
response loop of `collectSchemas`). -/
def responsesFold (m : SchemaMap) (rs : List (String × Response)) : SchemaMap :=
  rs.foldl
    (fun acc p =>
      match p.2.content with
      | some c => contentFold acc c
      | none => acc) m

/-- One route's contribution in `collectSchemas`: request-body content,
then each response's content. -/
def collectRoute (m : SchemaMap) (rt : RouteMetadata) : SchemaMap :=
  responsesFold
    (match rt.requestBody with
     | some rb => contentFold m rb.content
     | none => m)
    rt.responses

/-- The registration sequence performed by `collectRoute`. -/
def routeInserts (rt : RouteMetadata) : List (String × Schema) :=
  (match rt.requestBody with
   | some rb => rb.content.flatMap (fun p => schemaInserts p.2.schema)
   | none => []) ++
  rt.responses.flatMap
    (fun p =>
      match p.2.content with
      | some c => c.flatMap (fun q => schemaInserts q.2.schema)
      | none => [])

/-- The registration sequence performed over a route list. -/
def routesInserts (routes : List RouteMetadata) : List (String × Schema) :=
  routes.flatMap routeInserts

/-- `collectSchemas` from openapi/generator.go: harvest components from
every route's bodies and responses into the generator's schema table. -/
def collectSchemas (g : Generator) : SchemaMap :=
  g.routeMetadata.foldl collectRoute g.schemas

/-- The list of content schemas of a route (request body first, then
responses), used to state reachability claims. -/
def contentSchemasOfRoute (rt : RouteMetadata) : List Schema :=
  (match rt.requestBody with
   | some rb => rb.content.map (fun p => p.2.schema)
   | none => []) ++
  rt.responses.flatMap
    (fun p =>
      match p.2.content with
      | some c => c.map (fun q => q.2.schema)
      | none => [])

/-- Convert every entry of a content map to its reference form
(dropping the example, as the Go code rebuilds the MediaType with only
the Schema field). -/
def convertMediaTypes (tbl : SchemaMap) (c : List (String × MediaType)) :
    List (String × MediaType) :=
  c.map (fun p => (p.1, ⟨convertSchemaToRef tbl p.2.schema, none⟩))

/-- Convert a request body's content. -/
def convertRequestBody (tbl : SchemaMap) (rb : RequestBody) : RequestBody :=
  { rb with content := convertMediaTypes tbl rb.content }

/-- Convert each response's content (responses without content are left
alone). -/
def convertResponses (tbl : SchemaMap) (rs : List (String × Response)) :
    List (String × Response) :=
  rs.map (fun p =>
    match p.2.content with
    | some c => (p.1, { p.2 with content := some (convertMediaTypes tbl c) })
    | none => p)

/-- Place an operation in a path item's method slot (unknown methods
leave the item unchanged, like the Go switch without default). -/
def setMethodSlot (pi : PathItem) (method : String) (op : Operation) : PathItem :=
  if method = "GET" then { pi with get := some op }
  else if method = "POST" then { pi with post := some op }
  else if method = "PUT" then { pi with put := some op }
  else if method = "DELETE" then { pi with delete := some op }
  else if method = "PATCH" then { pi with patch := some op }
  else pi

/-- The path-assembly loop of `Generate`. -/
def buildPaths (tbl : SchemaMap) (routes : List RouteMetadata) : List (String × PathItem) :=
  routes.foldl
    (fun acc rt =>
      let pi := (mapLookup acc rt.path).getD ⟨none, none, none, none, none⟩
      let op : Operation :=
        ⟨rt.operationID, rt.summary, rt.description, rt.tags, rt.parameters,
         rt.requestBody.map (convertRequestBody tbl),
         convertResponses tbl rt.responses, rt.security⟩
      mapInsert acc rt.path (setMethodSlot pi rt.method op))
    []

/-- `Generate` from openapi/generator.go: store the routes, harvest the
component table, assemble paths (with reference resolution), drop the
self-describing `/openapi.json` slot, and return the document together
with the updated generator. -/
def Generate (g : Generator) (routes : List RouteMetadata) : Generator × Spec :=
  let g1 : Generator := { g with routeMetadata := routes }
  let g2 : Generator := { g1 with schemas := collectSchemas g1 }
  let paths := mapErase (buildPaths g2.schemas routes) "/openapi.json"
  (g2, ⟨"3.0.0", g.info, g.servers, paths, ⟨g.securitySchemes, g2.schemas⟩⟩)

/-! ## Concrete fixtures used by witnesses and counterexamples -/

/-- A minimal info block. -/
def sampleInfo : Info := ⟨"t", "", "v", "", ⟨"", "", ""⟩⟩

/-- A registered-looking object schema named `A` with an empty (but
present, i.e. non-nil) property map. -/
def sampleObjectSchema : Schema :=
  .mk { emptySchema.core with typ := "object", properties := some [], typeName := "A" }

/-- A route returning `sampleObjectSchema` as its 200 response. -/
def sampleRoute : RouteMetadata :=
  ⟨"GET", "/a", "", "", "", [], [], none,
   [("200", ⟨"ok", some [("application/json", ⟨sampleObjectSchema, none⟩)], none⟩)], []⟩

/-- The Go field `Xs []int` (no tags, exported). -/
def sampleSliceField : GoField := ⟨"Xs", "", "", true, .sliceT (.primT .intK "int")⟩

/-- The Go struct `type S struct { Xs []int }`. -/
def sampleSliceIntStruct : GoType := .structT "S" "pkg" "pkg.S" [sampleSliceField]

/-- Lookup of a property inside a generated example object. -/
def exampleObjLookup (ov : Option Value) (n : String) : Option Value :=
  match ov with
  | some (.obj l) => mapLookup l n
  | _ => none

/-- The serialized names of the exported fields of a struct, in order. -/
def fieldNames (fields : List GoField) : List String :=
  fields.filterMap (fun f => if f.exported then fieldJsonName f.name f.jsonTag else none)

/-- First-some choice on options. -/
def orOpt {α : Type} (x y : Option α) : Option α :=
  match x with
  | some v => some v
  | none => y

/-! ### Further definitions are inserted above; theorems follow. -/

/-! ## Helper lemmas on association lists and strings -/

theorem mapLookup_mem {α : Type} {m : List (String × α)} {k : String} {v : α}
    (h : mapLookup m k = some v) : (k, v) ∈ m := by
  induction m with
  | nil => simp [mapLookup] at h
  | cons p rest ih =>
    cases p with
    | mk a b =>
      by_cases hp : a = k
      · simp only [mapLookup, if_pos hp, Option.some.injEq] at h
        subst hp
        subst h
        exact List.mem_cons_self _ _
      · simp only [mapLookup] at h
        rw [if_neg hp] at h
        exact List.mem_cons_of_mem _ (ih h)

theorem listGetD_set_self {α : Type} [Inhabited α] (l : List α) (i : Nat) (e : α)
    (h : i < l.length) : (l.set i e).getD i default = e := by
  induction l generalizing i with
  | nil => simp at h
  | cons a rest ih =>
    cases i with
    | zero => rfl
    | succ j =>
      simp only [List.set_cons_succ, List.getD_cons_succ]
      exact ih j (by simpa using h)

theorem listGetD_append_length {α : Type} [Inhabited α] (l : List α) (e : α) :
    (l ++ [e]).getD l.length default = e := by
  induction l with
  | nil => rfl
  | cons a rest ih => simpa using ih

theorem strCancelRight (a b c : String) (h : a ++ c = b ++ c) : a = b := by
  apply String.ext
  have hd := congrArg String.data h
  rw [String.data_append, String.data_append] at hd
  exact List.append_cancel_right hd

theorem strFullNe {a b : String} (c : String) (h : a ≠ b) :
    a ++ "." ++ c ≠ b ++ "." ++ c := fun he =>
  h (strCancelRight a b "." (strCancelRight (a ++ ".") (b ++ ".") c he))

theorem strFullNeName (a c : String) : a ++ "." ++ c ≠ c := by
  intro he
  have hd := congrArg (fun s => s.data.length) he
  simp only [String.data_append, List.length_append] at hd
  have h1 : (".".data).length = 1 := rfl
  rw [h1] at hd
  omega

/-- Facts about the registry entry recorded for an identity right after
registering it: it is found under its full key, its final name is the
returned name, and its count went up by one. -/
theorem register_post (r : Registry) (p n : String) (hwf : RegistryWF r) :
    ∃ i, mapLookup (RegisterType r p n).2.index (p ++ "." ++ n) = some i ∧
      i < (RegisterType r p n).2.entries.length ∧
      ((RegisterType r p n).2.entries.getD i default).finalName = (RegisterType r p n).1 ∧
      ((RegisterType r p n).2.entries.getD i default).count = countOf r p n + 1 := by
  rcases h1 : mapLookup r.index (p ++ "." ++ n) with _ | i
  · rcases h2 : mapLookup r.index n with _ | j
    · refine ⟨r.entries.length, ?_⟩
      simp only [RegisterType, h1, h2, countOf, mapInsert, mapLookup, if_pos rfl,
        List.length_append]
      refine ⟨rfl, by simp, ?_, ?_⟩
      · rw [listGetD_append_length]
      · rw [listGetD_append_length]
    · refine ⟨r.entries.length, ?_⟩
      by_cases hc : (r.entries.getD j default).count = 1 ∧
          (r.entries.getD j default).finalName = n
      · simp only [RegisterType, h1, h2, countOf, if_pos hc, mapInsert, mapLookup,
          if_pos rfl, List.length_append, List.length_set]
        refine ⟨rfl, by simp, ?_, ?_⟩
        · have := listGetD_append_length
            (r.entries.set j { r.entries.getD j default with
              finalName := SanitizeSchemaName ((r.entries.getD j default).pkgPath ++ "_" ++ (r.entries.getD j default).name) })
            ⟨n, p, 1, SanitizeSchemaName (p ++ "_" ++ n)⟩
          rw [List.length_set] at this
          rw [this]
        · have := listGetD_append_length
            (r.entries.set j { r.entries.getD j default with
              finalName := SanitizeSchemaName ((r.entries.getD j default).pkgPath ++ "_" ++ (r.entries.getD j default).name) })
            ⟨n, p, 1, SanitizeSchemaName (p ++ "_" ++ n)⟩
          rw [List.length_set] at this
          rw [this]
      · simp only [RegisterType, h1, h2, countOf, if_neg hc, mapInsert, mapLookup,
          if_pos rfl, List.length_append]
        refine ⟨rfl, by simp, ?_, ?_⟩
        · rw [listGetD_append_length]
        · rw [listGetD_append_length]
  · have hi : i < r.entries.length := hwf _ (mapLookup_mem h1)
    refine ⟨i, ?_⟩
    simp only [RegisterType, h1, countOf]
    refine ⟨trivial, by simpa using hi, ?_, ?_⟩
    · rw [listGetD_set_self _ _ _ hi]
    · rw [listGetD_set_self _ _ _ hi]

/-- Re-registering an identity whose entry is found under its full key
returns the recorded final name and bumps its count. -/
theorem register_found (r : Registry) (p n : String) (i : Nat)
    (h : mapLookup r.index (p ++ "." ++ n) = some i) (hi : i < r.entries.length) :
    (RegisterType r p n).1 = (r.entries.getD i default).finalName ∧
    countOf (RegisterType r p n).2 p n = (r.entries.getD i default).count + 1 := by
  simp only [RegisterType, h, countOf]
  exact ⟨trivial, by rw [listGetD_set_self _ _ _ hi]⟩


/-- C1: with namespaces whose sanitized qualified names coincide, two
distinct TypeIdentities end up with the same final display name. -/
theorem C1_distinct_identities_share_final_name :
    (("a.b", "Foo") ≠ (("a_b" : String), ("Foo" : String))) ∧
    finalNameOf (RegisterType (RegisterType emptyRegistry "a.b" "Foo").2 "a_b" "Foo").2 "a.b" "Foo" = some "a_b_Foo" ∧
    finalNameOf (RegisterType (RegisterType emptyRegistry "a.b" "Foo").2 "a_b" "Foo").2 "a_b" "Foo" = some "a_b_Foo" := by
  decide

/-- C2 concrete collision determinism. -/
theorem C2_collision_determinism :
    (RegisterType (RegisterType emptyRegistry "ns1" "Foo").2 "ns2" "Foo").1 =
      SanitizeSchemaName ("ns2" ++ "_" ++ "Foo") ∧
    finalNameOf (RegisterType (RegisterType emptyRegistry "ns1" "Foo").2 "ns2" "Foo").2 "ns1" "Foo" =
      some (SanitizeSchemaName ("ns1" ++ "_" ++ "Foo")) ∧
    SanitizeSchemaName ("ns1" ++ "_" ++ "Foo") ≠ SanitizeSchemaName ("ns2" ++ "_" ++ "Foo") ∧
    (RegisterType (RegisterType (RegisterType emptyRegistry "ns1" "Foo").2 "ns2" "Foo").2 "ns1" "Foo").1 =
      SanitizeSchemaName ("ns1" ++ "_" ++ "Foo") ∧
    (RegisterType (RegisterType (RegisterType emptyRegistry "ns1" "Foo").2 "ns2" "Foo").2 "ns1" "Foo").1 ≠ "Foo" := by
  decide

/-- C3 counterexample. -/
theorem C3_cex_interleaved :
    (RegisterType emptyRegistry "ns1" "Foo").1 = "Foo" ∧
    (RegisterType (RegisterType (RegisterType emptyRegistry "ns1" "Foo").2 "ns2" "Foo").2 "ns1" "Foo").1 = "ns1_Foo" ∧
    ¬((RegisterType (RegisterType (RegisterType emptyRegistry "ns1" "Foo").2 "ns2" "Foo").2 "ns1" "Foo").1 =
      (RegisterType emptyRegistry "ns1" "Foo").1) := by
  decide

/-- C3 amended. -/
theorem C3_amended (r : Registry) (p n : String) (hwf : RegistryWF r) :
    (RegisterType (RegisterType r p n).2 p n).1 = (RegisterType r p n).1 ∧
    countOf (RegisterType r p n).2 p n = countOf r p n + 1 ∧
    countOf (RegisterType (RegisterType r p n).2 p n).2 p n = countOf (RegisterType r p n).2 p n + 1 := by
  obtain ⟨i, h1, h2, h3, h4⟩ := register_post r p n hwf
  obtain ⟨g1, g2⟩ := register_found (RegisterType r p n).2 p n i h1 h2
  have e1 : countOf (RegisterType r p n).2 p n =
      ((RegisterType r p n).2.entries.getD i default).count := by
    unfold countOf
    rw [h1]
  exact ⟨by rw [g1, h3], by rw [e1, h4], by rw [g2, e1]⟩

theorem C3_witness :
    (RegisterType (RegisterType emptyRegistry "p" "A").2 "p" "A").1 = (RegisterType emptyRegistry "p" "A").1 ∧
    countOf (RegisterType emptyRegistry "p" "A").2 "p" "A" = countOf emptyRegistry "p" "A" + 1 ∧
    countOf (RegisterType (RegisterType emptyRegistry "p" "A").2 "p" "A").2 "p" "A" =
      countOf (RegisterType emptyRegistry "p" "A").2 "p" "A" + 1 :=
  C3_amended emptyRegistry "p" "A" (by intro q hq; simp [emptyRegistry] at hq)

/-- C10 general. -/
theorem C10_third_namespace_bare (ns1 ns2 ns3 N : String)
    (h12 : ns1 ≠ ns2) (h31 : ns3 ≠ ns1) (h32 : ns3 ≠ ns2) :
    (RegisterType (RegisterType (RegisterType emptyRegistry ns1 N).2 ns2 N).2 ns3 N).1 = N := by
  have hA : ¬(ns1 ++ "." ++ N = ns2 ++ "." ++ N) := strFullNe N h12
  have hB1 : ¬(ns1 ++ "." ++ N = N) := strFullNeName ns1 N
  have hB2 : ¬(ns2 ++ "." ++ N = N) := strFullNeName ns2 N
  have hNB1 : ¬(N = ns1 ++ "." ++ N) := fun h => hB1 h.symm
  have hNB2 : ¬(N = ns2 ++ "." ++ N) := fun h => hB2 h.symm
  have hC : ¬(ns1 ++ "." ++ N = ns3 ++ "." ++ N) := strFullNe N (Ne.symm h31)
  have hD : ¬(ns2 ++ "." ++ N = ns3 ++ "." ++ N) := strFullNe N (Ne.symm h32)
  simp [RegisterType, emptyRegistry, mapLookup, mapInsert, mapErase,
    List.getD, hA, hB1, hB2, hNB1, hNB2, hC, hD]

theorem C10_witness :
    (RegisterType (RegisterType (RegisterType emptyRegistry "ns1" "N").2 "ns2" "N").2 "ns3" "N").1 = "N" :=
  C10_third_namespace_bare "ns1" "ns2" "ns3" "N" (by decide) (by decide) (by decide)


theorem applyInserts_append {α : Type} (m : List (String × α)) (a b : List (String × α)) :
    applyInserts m (a ++ b) = applyInserts (applyInserts m a) b := by
  simp [applyInserts, List.foldl_append]

theorem mapLookup_insert {α : Type} (m : List (String × α)) (a k : String) (v : α) :
    mapLookup (mapInsert m a v) k = if a = k then some v else mapLookup m k := rfl

theorem mapLookup_applyInserts {α : Type} (ops : List (String × α)) :
    ∀ (m : List (String × α)) (k : String),
    mapLookup (applyInserts m ops) k = orOpt (opsLookup ops k) (mapLookup m k) := by
  induction ops with
  | nil => intro m k; rfl
  | cons p rest ih =>
    intro m k
    have h1 : applyInserts m (p :: rest) = applyInserts (mapInsert m p.1 p.2) rest := rfl
    rw [h1, ih]
    rcases h : opsLookup rest k with _ | v
    · simp only [opsLookup, h, mapLookup_insert, orOpt]
      by_cases hp : p.1 = k
      · simp [hp]
      · simp [hp]
    · simp only [opsLookup, h, orOpt]

theorem opsLookup_isSome_of_mem {α : Type} (ops : List (String × α)) (k : String)
    (h : k ∈ ops.map Prod.fst) : (opsLookup ops k).isSome = true := by
  induction ops with
  | nil => simp at h
  | cons p rest ih =>
    rcases hr : opsLookup rest k with _ | v
    · simp only [List.map_cons, List.mem_cons] at h
      rcases h with h | h
      · simp only [opsLookup, hr, if_pos h.symm, Option.isSome_some]
      · have := ih h
        rw [hr] at this
        simp at this
    · simp [opsLookup, hr]

theorem applyInserts_ifsingle {α : Type} (m : List (String × α)) (c : Prop) [Decidable c]
    (g : String) (v : α) :
    applyInserts m (if c then [(g, v)] else []) = if c then mapInsert m g v else m := by
  split <;> rfl

theorem collect_eq_aux : ∀ k : Nat,
    (∀ (s : Schema) (m : SchemaMap), sizeOf s ≤ k →
      collectSchemaComponents m s = applyInserts m (schemaInserts s)) ∧
    (∀ (l : List (String × Schema)) (m : SchemaMap), sizeOf l ≤ k →
      collectProps m l = applyInserts m (propsInserts l)) := by
  intro k
  induction k with
  | zero =>
    constructor
    · intro s m hs
      exact absurd hs (by cases s with | mk c => simp_arith)
    · intro l m hl
      exact absurd hl (by cases l <;> simp_arith)
  | succ k ih =>
    obtain ⟨ihS, ihL⟩ := ih
    constructor
    · intro s m hs
      cases s with | mk core =>
      cases core with
      | mk typ rf fmt desc items props ex req mnl mxl mn mx en ao oo ano nl ap tn =>
        rw [collectSchemaComponents.eq_def, schemaInserts.eq_def]
        simp only []
        by_cases hty : typ = "object"
        · cases props with
          | none =>
            simp only [if_pos hty]
            cases items with
            | none => simp only []; rfl
            | some it =>
              simp only []
              have hit : sizeOf it ≤ k := by simp_arith at hs ⊢; omega
              rw [ihS it _ hit]
              rfl
          | some l =>
            simp only [if_pos hty]
            have hl : sizeOf l ≤ k := by simp_arith at hs ⊢; omega
            cases items with
            | none =>
              simp only []
              rw [ihL l _ hl, applyInserts_append, applyInserts_append, applyInserts_ifsingle]
              rfl
            | some it =>
              simp only []
              have hit : sizeOf it ≤ k := by simp_arith at hs ⊢; omega
              rw [ihS it _ hit, ihL l _ hl, applyInserts_append, applyInserts_append,
                applyInserts_ifsingle]
        · simp only [if_neg hty]
          cases items with
          | none => simp only []; rfl
          | some it =>
            simp only []
            have hit : sizeOf it ≤ k := by simp_arith at hs ⊢; omega
            rw [ihS it _ hit]
            rfl
    · intro l m hl
      cases l with
      | nil =>
        rw [collectProps.eq_def, propsInserts.eq_def]
        rfl
      | cons p rest =>
        cases p with | mk nm sc =>
        rw [collectProps.eq_def, propsInserts.eq_def]
        simp only []
        have h1 : sizeOf sc ≤ k := by simp_arith at hl ⊢; omega
        have h2 : sizeOf rest ≤ k := by simp_arith at hl ⊢; omega
        rw [ihS sc _ h1, ihL rest _ h2, applyInserts_append]



theorem collect_eq (m : SchemaMap) (s : Schema) :
    collectSchemaComponents m s = applyInserts m (schemaInserts s) :=
  (collect_eq_aux (sizeOf s)).1 s m le_rfl

theorem mapLookup_collect (m : SchemaMap) (s : Schema) (k : String) :
    mapLookup (collectSchemaComponents m s) k =
      orOpt (opsLookup (schemaInserts s) k) (mapLookup m k) := by
  rw [collect_eq, mapLookup_applyInserts]

theorem collect_mono (m : SchemaMap) (s : Schema) (k : String)
    (h : mapMem m k) : mapMem (collectSchemaComponents m s) k := by
  unfold mapMem at h ⊢
  rw [mapLookup_collect]
  rcases ho : opsLookup (schemaInserts s) k with _ | v
  · simpa [orOpt, ho]
  · simp [orOpt, ho]

theorem collect_mem_of_inserts (m : SchemaMap) (s : Schema) (k : String)
    (h : k ∈ (schemaInserts s).map Prod.fst) :
    mapMem (collectSchemaComponents m s) k := by
  unfold mapMem
  rw [mapLookup_collect]
  have := opsLookup_isSome_of_mem _ _ h
  rcases ho : opsLookup (schemaInserts s) k with _ | v
  · rw [ho] at this; simp at this
  · simp [orOpt, ho]

theorem propsInserts_mem_sub (l : List (String × Schema)) (nm : String) (t : Schema)
    (hmem : (nm, t) ∈ l) (x : String) (hx : x ∈ (schemaInserts t).map Prod.fst) :
    x ∈ (propsInserts l).map Prod.fst := by
  induction l with
  | nil => simp at hmem
  | cons p rest ih =>
    cases p with | mk nm' t' =>
    rw [propsInserts.eq_def]
    simp only [List.map_append, List.mem_append]
    rcases List.mem_cons.mp hmem with h | h
    · left
      cases h
      exact hx
    · right
      exact ih h

theorem reach_inserts (s u : Schema) (h : Reach s u) :
    (∀ w, Reach s w → w.properties ≠ none → w.typ = "object") →
    u.typ = "object" → u.properties ≠ none → generateSchemaName u ≠ "" →
    generateSchemaName u ∈ (schemaInserts s).map Prod.fst := by
  induction h with
  | refl v =>
    intro _ hu hp hn
    cases v with | mk core =>
    cases core with
    | mk typ rf fmt desc items props ex req mnl mxl mn mx en ao oo ano nl ap tn =>
      simp only [Schema.typ, Schema.core] at hu
      simp only [Schema.properties, Schema.core] at hp
      subst hu
      cases props with
      | none => exact absurd rfl hp
      | some l =>
        rw [schemaInserts.eq_def]
        simp only [eq_self_iff_true, if_true, List.map_append, List.mem_append]
        left
        left
        rw [if_pos hn]
        simp
  | items hit hr ih =>
    rename_i s t u
    intro hwf hu hp hn
    cases s with | mk core =>
    cases core with
    | mk typ rf fmt desc items props ex req mnl mxl mn mx en ao oo ano nl ap tn =>
      simp only [Schema.items, Schema.core] at hit
      subst hit
      rw [schemaInserts.eq_def]
      simp only [List.map_append, List.mem_append]
      right
      refine ih ?_ hu hp hn
      intro w hw hww
      refine hwf w ?_ hww
      exact Reach.items (by simp [Schema.items, Schema.core]) hw
  | prop hs hmem hr ih =>
    rename_i s t u l nm
    intro hwf hu hp hn
    have hty : s.typ = "object" := by
      refine hwf s (Reach.refl s) ?_
      rw [hs]
      simp
    cases s with | mk core =>
    cases core with
    | mk typ rf fmt desc items props ex req mnl mxl mn mx en ao oo ano nl ap tn =>
      simp only [Schema.typ, Schema.core] at hty
      simp only [Schema.properties, Schema.core] at hs
      subst hty
      subst hs
      rw [schemaInserts.eq_def]
      simp only [eq_self_iff_true, if_true, List.map_append, List.mem_append]
      left
      right
      refine propsInserts_mem_sub l nm t hmem _ ?_
      refine ih ?_ hu hp hn
      intro w hw hww
      refine hwf w ?_ hww
      exact Reach.prop (by simp [Schema.properties, Schema.core]) hmem hw



theorem contentFold_eq (c : List (String × MediaType)) :
    ∀ m, contentFold m c = applyInserts m (c.flatMap (fun p => schemaInserts p.2.schema)) := by
  induction c with
  | nil => intro m; rfl
  | cons p rest ih =>
    intro m
    have h1 : contentFold m (p :: rest) = contentFold (collectSchemaComponents m p.2.schema) rest := rfl
    rw [h1, ih, collect_eq]
    rw [List.flatMap_cons, applyInserts_append]

theorem responsesFold_eq (rs : List (String × Response)) :
    ∀ m, responsesFold m rs =
      applyInserts m (rs.flatMap
        (fun p => match p.2.content with
          | some c => c.flatMap (fun q => schemaInserts q.2.schema)
          | none => [])) := by
  induction rs with
  | nil => intro m; rfl
  | cons p rest ih =>
    intro m
    rcases hc : p.2.content with _ | c
    · have h1 : responsesFold m (p :: rest) = responsesFold m rest := by
        unfold responsesFold
        simp [hc]
      rw [h1, ih, List.flatMap_cons, hc, applyInserts_append]
      rfl
    · have h1 : responsesFold m (p :: rest) = responsesFold (contentFold m c) rest := by
        unfold responsesFold
        simp [hc]
      rw [h1, ih, contentFold_eq, List.flatMap_cons, hc, applyInserts_append]

theorem collectRoute_eq (m : SchemaMap) (rt : RouteMetadata) :
    collectRoute m rt = applyInserts m (routeInserts rt) := by
  unfold collectRoute routeInserts
  rcases hb : rt.requestBody with _ | rb
  · simp only []
    rw [responsesFold_eq, applyInserts_append]
    rfl
  · simp only []
    rw [responsesFold_eq, contentFold_eq, applyInserts_append]

theorem collectRoutes_eq (routes : List RouteMetadata) :
    ∀ m, routes.foldl collectRoute m = applyInserts m (routesInserts routes) := by
  induction routes with
  | nil => intro m; rfl
  | cons rt rest ih =>
    intro m
    have h1 : (rt :: rest).foldl collectRoute m = rest.foldl collectRoute (collectRoute m rt) := rfl
    rw [h1, ih, collectRoute_eq]
    have h2 : routesInserts (rt :: rest) = routeInserts rt ++ routesInserts rest := by
      unfold routesInserts
      simp
    rw [h2, applyInserts_append]

theorem generate_schemas (g : Generator) (routes : List RouteMetadata) :
    (Generate g routes).2.components.schemas = routes.foldl collectRoute g.schemas := rfl

theorem mapMem_applyInserts {α : Type} (m : List (String × α)) (ops : List (String × α))
    (k : String) :
    mapMem (applyInserts m ops) k ↔ (opsLookup ops k).isSome = true ∨ mapMem m k := by
  unfold mapMem
  rw [mapLookup_applyInserts]
  rcases h : opsLookup ops k with _ | v
  · simp [orOpt]
  · simp [orOpt]

theorem mem_map_fst_flatMap {α β : Type} (l : List α) (f : α → List (String × β))
    (x : String) (a : α) (ha : a ∈ l) (hx : x ∈ (f a).map Prod.fst) :
    x ∈ (l.flatMap f).map Prod.fst := by
  induction l with
  | nil => simp at ha
  | cons b rest ih =>
    rw [List.flatMap_cons, List.map_append, List.mem_append]
    rcases List.mem_cons.mp ha with h | h
    · left
      subst h
      exact hx
    · right
      exact ih h

theorem routeInserts_mem (rt : RouteMetadata) (sroot : Schema) (x : String)
    (hs : sroot ∈ contentSchemasOfRoute rt)
    (hx : x ∈ (schemaInserts sroot).map Prod.fst) :
    x ∈ (routeInserts rt).map Prod.fst := by
  unfold contentSchemasOfRoute at hs
  unfold routeInserts
  simp only [List.map_append, List.mem_append]
  rcases List.mem_append.mp hs with h | h
  · left
    rcases hb : rt.requestBody with _ | rb
    · rw [hb] at h; simp at h
    · rw [hb] at h
      simp only [List.mem_map] at h
      obtain ⟨p, hp, hps⟩ := h
      exact mem_map_fst_flatMap rb.content _ x p hp (by rw [hps]; exact hx)
  · right
    rw [List.mem_flatMap] at h
    obtain ⟨p, hp, hmem⟩ := h
    rcases hc : p.2.content with _ | cc
    · rw [hc] at hmem; simp at hmem
    · rw [hc] at hmem
      simp only [List.mem_map] at hmem
      obtain ⟨q, hq, hqs⟩ := hmem
      refine mem_map_fst_flatMap rt.responses _ x p hp ?_
      rw [hc]
      exact mem_map_fst_flatMap cc _ x q hq (by rw [hqs]; exact hx)

theorem collectRoutes_mem (routes : List RouteMetadata) (m : SchemaMap)
    (rt : RouteMetadata) (x : String) (hrt : rt ∈ routes)
    (hx : x ∈ (routeInserts rt).map Prod.fst) :
    mapMem (routes.foldl collectRoute m) x := by
  rw [collectRoutes_eq, mapMem_applyInserts]
  left
  exact opsLookup_isSome_of_mem _ _ (mem_map_fst_flatMap routes routeInserts x rt hrt hx)



/-- C4: after one document-generation call, every object schema node with
properties and a non-empty generated name that is reachable (through
array items and object properties) from a request-body or response
content entry of a route has an entry in the document's component table
under its generated schema name.  Well-formedness of the descriptors
(property maps occur only on object nodes, per the data model) is
assumed. -/
theorem C4_collector_completeness (g : Generator) (routes : List RouteMetadata)
    (rt : RouteMetadata) (sroot u : Schema)
    (hrt : rt ∈ routes) (hsr : sroot ∈ contentSchemasOfRoute rt)
    (hreach : Reach sroot u)
    (hwf : ∀ w, Reach sroot w → w.properties ≠ none → w.typ = "object")
    (hu : u.typ = "object") (hp : u.properties ≠ none)
    (hn : generateSchemaName u ≠ "") :
    mapMem ((Generate g routes).2.components.schemas) (generateSchemaName u) := by
  rw [generate_schemas]
  exact collectRoutes_mem routes g.schemas rt _ hrt
    (routeInserts_mem rt sroot _ hsr (reach_inserts sroot u hreach hwf hu hp hn))

/-- C4 witness at a concrete route list. -/
theorem C4_witness :
    mapMem ((Generate (NewGenerator sampleInfo) [sampleRoute]).2.components.schemas)
      (generateSchemaName sampleObjectSchema) := by
  refine C4_collector_completeness (NewGenerator sampleInfo) [sampleRoute] sampleRoute
    sampleObjectSchema sampleObjectSchema (by simp)
    (by simp [contentSchemasOfRoute, sampleRoute])
    (Reach.refl _) ?_ (by decide) ?_ (by decide)
  · intro w hw _
    cases hw with
    | refl => decide
    | items hit hr => exact Option.noConfusion hit
    | prop hs hmem hr =>
      have hl := Option.some.inj hs
      rw [← hl] at hmem
      simp at hmem
  · intro h
    exact Option.noConfusion h

/-- C9 (amended): document generation is history-dependent: the schema
table persists inside the generator, so the component section of a call
on a used generator is the fresh-call section overriding the earlier
call's section (earlier components persist unless shadowed). -/
theorem C9_component_table_accumulates (info : Info)
    (routes1 routes2 : List RouteMetadata) (k : String) :
    mapLookup ((Generate (Generate (NewGenerator info) routes1).1 routes2).2.components.schemas) k =
      orOpt
        (mapLookup ((Generate (NewGenerator info) routes2).2.components.schemas) k)
        (mapLookup ((Generate (NewGenerator info) routes1).2.components.schemas) k) := by
  rw [generate_schemas, generate_schemas, generate_schemas]
  have h1 : (Generate (NewGenerator info) routes1).1.schemas =
      routes1.foldl collectRoute (NewGenerator info).schemas := rfl
  rw [h1]
  rw [collectRoutes_eq, collectRoutes_eq routes2, collectRoutes_eq,
    mapLookup_applyInserts, mapLookup_applyInserts, mapLookup_applyInserts]
  have h0 : mapLookup (NewGenerator info).schemas k = none := rfl
  rw [h0]
  rcases opsLookup (routesInserts routes2) k with _ | v2 <;>
    rcases opsLookup (routesInserts routes1) k with _ | v1 <;>
      simp [orOpt]

/-- C9 counterexample: a generator that already generated a document for
`[sampleRoute]` still carries component `A` when generating for an empty
route list, while a fresh generator yields an empty component section. -/
theorem C9_cex_component_table_persists :
    mapLookup ((Generate (Generate (NewGenerator sampleInfo) [sampleRoute]).1 []).2.components.schemas) "A" =
      some sampleObjectSchema ∧
    mapLookup ((Generate (NewGenerator sampleInfo) []).2.components.schemas) "A" = none ∧
    (Generate (Generate (NewGenerator sampleInfo) [sampleRoute]).1 []).2.components.schemas ≠
      (Generate (NewGenerator sampleInfo) []).2.components.schemas := by
  have e0 : (Generate (Generate (NewGenerator sampleInfo) [sampleRoute]).1 []).2.components.schemas =
      collectRoute [] sampleRoute := rfl
  have e1 : collectRoute [] sampleRoute =
      collectSchemaComponents [] sampleObjectSchema := rfl
  have hmk : sampleObjectSchema =
      Schema.mk { emptySchema.core with
                  typ := "object", properties := some [], typeName := "A" } := rfl
  have hg : generateSchemaName sampleObjectSchema = "A" := by decide
  have hg2 : generateSchemaName sampleObjectSchema ≠ "" := by decide
  have e3 : schemaInserts sampleObjectSchema = [("A", sampleObjectSchema)] := by
    rw [hmk, schemaInserts.eq_def]
    simp only [eq_self_iff_true, if_true]
    rw [if_pos (hmk ▸ hg2), propsInserts.eq_def]
    rw [hmk] at hg
    rw [hg]
    rfl
  have e2 : collectSchemaComponents ([] : SchemaMap) sampleObjectSchema =
      [("A", sampleObjectSchema)] := by
    rw [collect_eq, e3]
    rfl
  refine ⟨?_, rfl, ?_⟩
  · rw [e0, e1, e2]
    simp [mapLookup]
  · intro h
    have h2 := congrArg (fun m => mapLookup m "A") h
    rw [e0] at h2
    simp only [e1, e2] at h2
    simp [mapLookup] at h2

theorem natDigits_ne_nil (n : Nat) : natDigits n ≠ [] := by
  rw [natDigits]
  split <;> simp

theorem digitVal_digitChar (d : Nat) (h : d < 10) : digitVal (digitChar d) = some d := by
  interval_cases d <;> decide

theorem natDigits_bounds (n : Nat) : ∀ c ∈ natDigits n, 48 ≤ c.toNat ∧ c.toNat ≤ 57 := by
  induction n using Nat.strong_induction_on with
  | _ n ih =>
    rw [natDigits]
    split
    · rename_i h
      intro c hc
      simp at hc
      subst hc
      interval_cases n <;> decide
    · rename_i h
      intro c hc
      rcases List.mem_append.mp hc with h1 | h2
      · exact ih (n / 10) (Nat.div_lt_self (by omega) (by omega)) c h1
      · simp at h2
        subst h2
        have h10 : n % 10 < 10 := Nat.mod_lt _ (by omega)
        set k := n % 10 with hk
        interval_cases k <;> decide

theorem parse_fold (n : Nat) : ∀ v : Nat,
    (natDigits n).foldl parseStep (some v) = some (v * 10 ^ (natDigits n).length + n) := by
  induction n using Nat.strong_induction_on with
  | _ n ih =>
    intro v
    rw [natDigits]
    split
    · rename_i h
      simp [parseStep, digitVal_digitChar n h]
    · rename_i h
      rw [List.foldl_append]
      rw [ih (n / 10) (Nat.div_lt_self (by omega) (by omega)) v]
      simp only [List.foldl_cons, List.foldl_nil, parseStep,
        digitVal_digitChar (n % 10) (Nat.mod_lt _ (by omega : 0 < (10:Nat)))]
      have hlen : (natDigits (n / 10) ++ [digitChar (n % 10)]).length =
          (natDigits (n / 10)).length + 1 := by simp
      rw [hlen]
      congr 1
      have := Nat.div_add_mod n 10
      ring_nf
      omega

theorem parseDigits_natDigits (n : Nat) : parseDigits (natDigits n) = some n := by
  rcases h : natDigits n with _ | ⟨c, cs⟩
  · exact absurd h (natDigits_ne_nil n)
  · have hf := parse_fold n 0
    rw [h] at hf
    rw [parseDigits, hf] <;> simp

theorem atoi_mk_cons (c : Char) (cs : List Char) :
    atoi ⟨c :: cs⟩ = if c = '-' then (parseDigits cs).map (fun m : Nat => -(m : Int))
      else if c = '+' then (parseDigits cs).map (fun m : Nat => (m : Int))
      else (parseDigits (c :: cs)).map (fun m : Nat => (m : Int)) := rfl

theorem atoi_itoa (n : Int) : atoi (itoa n) = some n := by
  by_cases hn : n < 0
  · rw [itoa, if_pos hn]
    rw [atoi_mk_cons, if_pos rfl, parseDigits_natDigits]
    simp only [Option.map_some', Option.some.injEq]
    omega
  · rw [itoa, if_neg hn]
    rcases h : natDigits n.natAbs with _ | ⟨c, cs⟩
    · exact absurd h (natDigits_ne_nil _)
    · have hc : 48 ≤ c.toNat ∧ c.toNat ≤ 57 := by
        apply natDigits_bounds n.natAbs
        rw [h]
        exact List.mem_cons_self _ _
      have hc1 : ¬(c = '-') := by
        intro he
        subst he
        revert hc
        decide
      have hc2 : ¬(c = '+') := by
        intro he
        subst he
        revert hc
        decide
      rw [atoi_mk_cons, if_neg hc1, if_neg hc2, ← h, parseDigits_natDigits]
      simp only [Option.map_some', Option.some.injEq]
      omega

theorem itoa_404 : itoa 404 = "404" := by
  rw [itoa, if_neg (by norm_num)]
  rw [natDigits]
  rw [dif_neg (by norm_num)]
  rw [natDigits]
  rw [dif_neg (by norm_num)]
  rw [natDigits]
  norm_num
  decide

theorem atoi_abc : atoi "abc" = none := by decide

theorem sanitize_drop (s : String) (n : Nat) (h : SanitizeSchemaName s = s) :
    SanitizeSchemaName ⟨s.data.drop n⟩ = ⟨s.data.drop n⟩ := by
  have hd := congrArg String.data h
  simp only [SanitizeSchemaName, replaceAllChar] at hd ⊢
  rw [List.map_drop, List.map_drop, List.map_drop, hd]

/-- C8: status-code conversion: decimal rendering, parsing, the
round trip on every integer, and the format error on non-numeric
input. -/
theorem C8_status_code_conversion :
    StatusCodeToString 404 = "404" ∧
    StatusCodeFromString "404" = some 404 ∧
    (∀ n : Int, StatusCodeFromString (StatusCodeToString n) = some n) ∧
    StatusCodeFromString "abc" = none :=
  ⟨itoa_404, by decide, fun n => atoi_itoa n, by decide⟩

/-- C5 counterexample: `generateSchemaName` does not sanitize: on a node
whose display-type-name is `a.b` it returns `a.b`, not `a_b`. -/
theorem C5_cex_no_sanitization :
    ¬(generateSchemaName (Schema.mk { emptySchema.core with typeName := "a.b" }) =
        SanitizeSchemaName (Schema.mk { emptySchema.core with typeName := "a.b" }).typeName) ∧
    generateSchemaName (Schema.mk { emptySchema.core with typeName := "a.b" }) = "a.b" ∧
    SanitizeSchemaName "a.b" = "a_b" := by
  refine ⟨by decide, by decide, by decide⟩

/-- C5 (amended): `generateSchemaName` strips a leading `[]` marker and
otherwise returns the display-type-name unchanged, without applying
sanitization; the empty display-type-name yields the empty name.  When
the display-type-name is already sanitized (as all registry-assigned
names are), the result is itself sanitized. -/
theorem C5_strip_marker_no_sanitize (s : Schema) :
    (s.typeName = "" → generateSchemaName s = "") ∧
    (s.typeName ≠ "" → hasPrefixGo "[]" s.typeName = true →
      generateSchemaName s = trimPrefixGo "[]" s.typeName) ∧
    (s.typeName ≠ "" → hasPrefixGo "[]" s.typeName = false →
      generateSchemaName s = s.typeName) ∧
    (SanitizeSchemaName s.typeName = s.typeName →
      SanitizeSchemaName (generateSchemaName s) = generateSchemaName s) := by
  refine ⟨?_, ?_, ?_, ?_⟩
  · intro h
    simp [generateSchemaName, h]
  · intro h hp
    simp [generateSchemaName, h, hp]
  · intro h hp
    simp [generateSchemaName, h, hp]
  · intro hsan
    by_cases h : s.typeName = ""
    · simp [generateSchemaName, h]
      rfl
    · cases hp : hasPrefixGo "[]" s.typeName with
      | false => simp [generateSchemaName, h, hp, hsan]
      | true =>
        have h3 : generateSchemaName s = trimPrefixGo "[]" s.typeName := by
          simp [generateSchemaName, h, hp]
        have h2 : trimPrefixGo "[]" s.typeName = ⟨s.typeName.data.drop 2⟩ := by
          simp [trimPrefixGo, hp]
        rw [h3, h2]
        exact sanitize_drop s.typeName 2 hsan

/-- C5 witness at a concrete array-marked, sanitized display name. -/
theorem C5_witness :
    generateSchemaName (Schema.mk { emptySchema.core with typeName := "[]Foo_Bar" }) =
      trimPrefixGo "[]" "[]Foo_Bar" ∧
    SanitizeSchemaName (generateSchemaName (Schema.mk { emptySchema.core with typeName := "[]Foo_Bar" })) =
      generateSchemaName (Schema.mk { emptySchema.core with typeName := "[]Foo_Bar" }) :=
  ⟨((C5_strip_marker_no_sanitize _).2.1 (by decide) (by decide)),
   ((C5_strip_marker_no_sanitize _).2.2.2 (by decide))⟩

theorem bracket_ne_time (s : String) : ("[]" ++ s : String) ≠ "time.Time" := by
  intro h
  have hd := congrArg String.data h
  rw [String.data_append] at hd
  have h1 : ("[]" : String).data = ['[', ']'] := rfl
  have h2 : ("time.Time" : String).data = ['t', 'i', 'm', 'e', '.', 'T', 'i', 'm', 'e'] := rfl
  rw [h1, h2] at hd
  simp at hd

/-- The struct case of `SchemaFromType`, characterised. -/
theorem SchemaFromType_struct (nm pk srep : String) (fields : List GoField) (r : Registry)
    (h : srep ≠ "time.Time") :
    SchemaFromType (.structT nm pk srep fields) r =
      (Schema.mk { emptySchema.core with
          typ := "object",
          properties := some (getStructProperties fields r).1,
          required := (getStructProperties fields r).2.1,
          exampleVal := generateExample (.structT nm pk srep fields),
          typeName := (RegisterType (getStructProperties fields r).2.2 pk nm).1 },
       (RegisterType (getStructProperties fields r).2.2 pk nm).2) := by
  rw [SchemaFromType]
  rw [if_neg (show ¬(goString (.structT nm pk srep fields) = "time.Time") from h)]

/-- The slice case of `SchemaFromType`, characterised. -/
theorem SchemaFromType_slice (e : GoType) (r : Registry) :
    SchemaFromType (.sliceT e) r =
      if (SchemaFromType e r).1.typ = "object" ∧ (SchemaFromType e r).1.typeName ≠ "" then
        (Schema.mk { emptySchema.core with
            typ := "array",
            items := some (refSchema
              ("#/components/schemas/" ++ SanitizeSchemaName (SchemaFromType e r).1.typeName)),
            typeName := "[]" ++ (SchemaFromType e r).1.typeName },
         (SchemaFromType e r).2)
      else
        (Schema.mk { emptySchema.core with
            typ := "array", items := some (SchemaFromType e r).1,
            typeName := "[]" ++ (SchemaFromType e r).1.typeName },
         (SchemaFromType e r).2) := by
  rw [SchemaFromType]
  rw [if_neg (show ¬(goString (.sliceT e) = "time.Time") from bracket_ne_time (goString e))]

/-- C6: building a schema for `[]T` where `T` is a composite type (with
a non-empty assigned name, registered in the component table) and then
resolving it yields an array node whose element is exactly a Reference
to the sanitized component name with no other fields set (`refSchema`),
and resolution leaves the array wrapper unchanged. -/
theorem C6_array_resolves_to_reference (r : Registry) (tbl : SchemaMap)
    (nm pk srep : String) (fields : List GoField)
    (hsrep : srep ≠ "time.Time")
    (hn : (SchemaFromType (.structT nm pk srep fields) r).1.typeName ≠ "")
    (hreg : mapMem tbl
      (SanitizeSchemaName (SchemaFromType (.structT nm pk srep fields) r).1.typeName)) :
    (SchemaFromType (.sliceT (.structT nm pk srep fields)) r).1.typ = "array" ∧
    (SchemaFromType (.sliceT (.structT nm pk srep fields)) r).1.typeName =
      "[]" ++ (SchemaFromType (.structT nm pk srep fields) r).1.typeName ∧
    (SchemaFromType (.sliceT (.structT nm pk srep fields)) r).1.items =
      some (refSchema ("#/components/schemas/" ++
        SanitizeSchemaName (SchemaFromType (.structT nm pk srep fields) r).1.typeName)) ∧
    convertSchemaToRef tbl (SchemaFromType (.sliceT (.structT nm pk srep fields)) r).1 =
      (SchemaFromType (.sliceT (.structT nm pk srep fields)) r).1 := by
  have hty : (SchemaFromType (.structT nm pk srep fields) r).1.typ = "object" := by
    rw [SchemaFromType_struct nm pk srep fields r hsrep]
    rfl
  rw [SchemaFromType_slice, if_pos ⟨hty, hn⟩]
  have href : convertSchemaToRef tbl (refSchema ("#/components/schemas/" ++
      SanitizeSchemaName (SchemaFromType (.structT nm pk srep fields) r).1.typeName)) =
      refSchema ("#/components/schemas/" ++
        SanitizeSchemaName (SchemaFromType (.structT nm pk srep fields) r).1.typeName) := by
    rw [convertSchemaToRef.eq_def]
    simp only [refSchema, emptySchema, Schema.core]
    rw [if_neg (fun hcon => absurd hcon.1 (by decide))]
  refine ⟨rfl, rfl, rfl, ?_⟩
  rw [convertSchemaToRef.eq_def]
  simp only []
  rw [if_neg (fun hcon => absurd hcon.1 (by decide))]
  simp only [if_true]
  rw [href]

/-- C6 witness at a concrete struct type. -/
theorem C6_witness :
    (SchemaFromType (.sliceT (.structT "Foo" "pkg" "pkg.Foo" [])) emptyRegistry).1.typ = "array" ∧
    (SchemaFromType (.sliceT (.structT "Foo" "pkg" "pkg.Foo" [])) emptyRegistry).1.typeName =
      "[]" ++ (SchemaFromType (.structT "Foo" "pkg" "pkg.Foo" []) emptyRegistry).1.typeName ∧
    (SchemaFromType (.sliceT (.structT "Foo" "pkg" "pkg.Foo" [])) emptyRegistry).1.items =
      some (refSchema ("#/components/schemas/" ++
        SanitizeSchemaName (SchemaFromType (.structT "Foo" "pkg" "pkg.Foo" []) emptyRegistry).1.typeName)) ∧
    convertSchemaToRef [("Foo", sampleObjectSchema)]
        (SchemaFromType (.sliceT (.structT "Foo" "pkg" "pkg.Foo" [])) emptyRegistry).1 =
      (SchemaFromType (.sliceT (.structT "Foo" "pkg" "pkg.Foo" [])) emptyRegistry).1 := by
  have htn : (SchemaFromType (.structT "Foo" "pkg" "pkg.Foo" []) emptyRegistry).1.typeName = "Foo" := by
    rw [SchemaFromType_struct _ _ _ _ _ (by decide : ("pkg.Foo" : String) ≠ "time.Time")]
    rw [getStructProperties]
    decide
  refine C6_array_resolves_to_reference emptyRegistry [("Foo", sampleObjectSchema)]
    "Foo" "pkg" "pkg.Foo" [] (by decide) ?_ ?_
  · rw [htn]
    decide
  · rw [htn]
    decide

/-- The slice arm of the per-field example switch, characterised. -/
theorem exampleValueOfType_slice (e : GoType) :
    exampleValueOfType (.sliceT e) = (generateExample e).map (fun x => Value.arr [x]) := by
  rw [exampleValueOfType.eq_def]

/-- The array arm of the per-field example switch, characterised. -/
theorem exampleValueOfType_array (n : Nat) (e : GoType) :
    exampleValueOfType (.arrayT n e) = (generateExample e).map (fun x => Value.arr [x]) := by
  rw [exampleValueOfType.eq_def]

theorem fieldNames_cons_unexported (fnm jt vt : String) (ty : GoType) (rest : List GoField) :
    fieldNames (⟨fnm, jt, vt, false, ty⟩ :: rest) = fieldNames rest := by
  simp [fieldNames]

theorem fieldNames_cons_skip (fnm jt vt : String) (ty : GoType) (rest : List GoField)
    (h : fieldJsonName fnm jt = none) :
    fieldNames (⟨fnm, jt, vt, true, ty⟩ :: rest) = fieldNames rest := by
  simp [fieldNames, h]

theorem fieldNames_cons_named (fnm jt vt : String) (ty : GoType) (rest : List GoField)
    (nm : String) (h : fieldJsonName fnm jt = some nm) :
    fieldNames (⟨fnm, jt, vt, true, ty⟩ :: rest) = nm :: fieldNames rest := by
  simp [fieldNames, h]

theorem exampleFields_cons_unexported (fnm jt vt : String) (ty : GoType)
    (rest : List GoField) (m : List (String × Value)) :
    exampleFields (⟨fnm, jt, vt, false, ty⟩ :: rest) m = exampleFields rest m := by
  rw [exampleFields.eq_def]
  rfl

theorem exampleFields_cons_skip (fnm jt vt : String) (ty : GoType)
    (rest : List GoField) (m : List (String × Value))
    (hj : fieldJsonName fnm jt = none) :
    exampleFields (⟨fnm, jt, vt, true, ty⟩ :: rest) m = exampleFields rest m := by
  rw [exampleFields.eq_def]
  simp only []
  rw [if_neg (by decide : ¬(true = false)), hj]

theorem exampleFields_cons_none (fnm jt vt : String) (ty : GoType)
    (rest : List GoField) (m : List (String × Value)) (nm : String)
    (hj : fieldJsonName fnm jt = some nm) (hv : exampleValueOfType ty = none) :
    exampleFields (⟨fnm, jt, vt, true, ty⟩ :: rest) m = exampleFields rest m := by
  rw [exampleFields.eq_def]
  simp only []
  rw [if_neg (by decide : ¬(true = false)), hj]
  simp only []
  rw [hv]

theorem exampleFields_cons_some (fnm jt vt : String) (ty : GoType)
    (rest : List GoField) (m : List (String × Value)) (nm : String) (v : Value)
    (hj : fieldJsonName fnm jt = some nm) (hv : exampleValueOfType ty = some v) :
    exampleFields (⟨fnm, jt, vt, true, ty⟩ :: rest) m =
      exampleFields rest (mapInsert m nm v) := by
  rw [exampleFields.eq_def]
  simp only []
  rw [if_neg (by decide : ¬(true = false)), hj]
  simp only []
  rw [hv]

theorem exampleFields_lookup_not_mem (fields : List GoField) :
    ∀ (m : List (String × Value)) (n : String), n ∉ fieldNames fields →
      mapLookup (exampleFields fields m) n = mapLookup m n := by
  induction fields with
  | nil =>
    intro m n _
    rw [exampleFields.eq_def]
  | cons f rest ih =>
    intro m n hn
    cases f with | mk fnm jt vt ex ty =>
    cases hex : ex with
    | false =>
      rw [exampleFields_cons_unexported]
      rw [hex] at hn
      rw [fieldNames_cons_unexported] at hn
      exact ih m n hn
    | true =>
      rw [hex] at hn
      rcases hj : fieldJsonName fnm jt with _ | nm
      · rw [exampleFields_cons_skip _ _ _ _ _ _ hj]
        rw [fieldNames_cons_skip _ _ _ _ _ hj] at hn
        exact ih m n hn
      · rw [fieldNames_cons_named _ _ _ _ _ _ hj] at hn
        have hnm : ¬(nm = n) := fun hc => hn (hc ▸ List.mem_cons_self _ _)
        have hrest : n ∉ fieldNames rest := fun hc => hn (List.mem_cons_of_mem _ hc)
        rcases hv : exampleValueOfType ty with _ | v
        · rw [exampleFields_cons_none _ _ _ _ _ _ _ hj hv]
          exact ih m n hrest
        · rw [exampleFields_cons_some _ _ _ _ _ _ _ _ hj hv]
          rw [ih _ n hrest]
          simp [mapInsert, mapLookup, hnm]

theorem exampleFields_lookup_mem (fields : List GoField) :
    ∀ (m : List (String × Value)) (f : GoField) (n : String),
      f ∈ fields → f.exported = true → fieldJsonName f.name f.jsonTag = some n →
      (fieldNames fields).Nodup →
      mapLookup (exampleFields fields m) n =
        match exampleValueOfType f.typ with
        | some v => some v
        | none => mapLookup m n := by
  induction fields with
  | nil =>
    intro m f n hf
    simp at hf
  | cons g rest ih =>
    intro m f n hf hex hn hnodup
    cases g with | mk fnm jt vt ex ty =>
    rcases List.mem_cons.mp hf with hhead | htail
    · subst hhead
      simp only at hex hn
      subst hex
      rw [fieldNames_cons_named _ _ _ _ _ _ hn] at hnodup
      have hrest : n ∉ fieldNames rest := (List.nodup_cons.mp hnodup).1
      have hft : (⟨fnm, jt, vt, true, ty⟩ : GoField).typ = ty := rfl
      rw [hft]
      rcases hv : exampleValueOfType ty with _ | v
      · rw [exampleFields_cons_none _ _ _ _ _ _ _ hn hv]
        simp only []
        exact exampleFields_lookup_not_mem rest m n hrest
      · rw [exampleFields_cons_some _ _ _ _ _ _ _ _ hn hv]
        simp only []
        rw [exampleFields_lookup_not_mem rest _ n hrest]
        simp [mapInsert, mapLookup]
    · have hnr : n ∈ fieldNames rest := by
        unfold fieldNames
        rw [List.mem_filterMap]
        refine ⟨f, htail, ?_⟩
        rw [hex]
        simpa using hn
      cases hexg : ex with
      | false =>
        rw [exampleFields_cons_unexported]
        rw [hexg] at hnodup
        rw [fieldNames_cons_unexported] at hnodup
        exact ih m f n htail hex hn hnodup
      | true =>
        rw [hexg] at hnodup
        rcases hj : fieldJsonName fnm jt with _ | nm
        · rw [exampleFields_cons_skip _ _ _ _ _ _ hj]
          rw [fieldNames_cons_skip _ _ _ _ _ hj] at hnodup
          exact ih m f n htail hex hn hnodup
        · rw [fieldNames_cons_named _ _ _ _ _ _ hj] at hnodup
          have hne : ¬(nm = n) := by
            intro hc
            subst hc
            exact (List.nodup_cons.mp hnodup).1 hnr
          rcases hv : exampleValueOfType ty with _ | v
          · rw [exampleFields_cons_none _ _ _ _ _ _ _ hj hv]
            exact ih m f n htail hex hn ((List.nodup_cons.mp hnodup).2)
          · rw [exampleFields_cons_some _ _ _ _ _ _ _ _ hj hv]
            rw [ih _ f n htail hex hn ((List.nodup_cons.mp hnodup).2)]
            rcases exampleValueOfType f.typ with _ | w
            · simp [mapInsert, mapLookup, hne]
            · rfl

/-- C7 counterexample: for `type S struct { Xs []int }` the generated
example object is empty — the array-of-primitive member produces no
one-element sequence `[42]`, contrary to the claim. -/
theorem C7_cex_array_of_primitive_example :
    generateExample sampleSliceIntStruct = some (Value.obj []) ∧
    some (Value.obj []) ≠ some (Value.obj [("Xs", Value.arr [Value.int 42])]) := by
  constructor
  · simp [sampleSliceIntStruct, sampleSliceField, generateExample, exampleFields,
      exampleValueOfType, fieldJsonName, getExampleValue]
  · simp

/-- C7 (amended): an array/slice member contributes a one-element
sequence wrapping the element's example only when the element's
generated example is non-nil (i.e. the element is a struct); otherwise
— in particular for every primitive element type — the element's
example is nil and the member is omitted from the example object. -/
theorem C7_array_member_example (nm pk st : String) (fields : List GoField)
    (f : GoField) (e : GoType) (n : String)
    (hf : f ∈ fields) (hex : f.exported = true)
    (hn : fieldJsonName f.name f.jsonTag = some n)
    (hty : f.typ = .sliceT e ∨ ∃ k, f.typ = .arrayT k e)
    (hnodup : (fieldNames fields).Nodup) :
    (∀ v, generateExample e = some v →
      exampleObjLookup (generateExample (.structT nm pk st fields)) n =
        some (Value.arr [v])) ∧
    (generateExample e = none →
      exampleObjLookup (generateExample (.structT nm pk st fields)) n = none) ∧
    (∀ (k : GoKind) (pn : String), e = .primT k pn → generateExample e = none) := by
  have hgen : generateExample (.structT nm pk st fields) =
      some (.obj (exampleFields fields [])) := by
    rw [generateExample.eq_def]
  have hobj : exampleObjLookup (generateExample (.structT nm pk st fields)) n =
      mapLookup (exampleFields fields []) n := by
    rw [hgen]
    rfl
  have hlook := exampleFields_lookup_mem fields [] f n hf hex hn hnodup
  have hslice : exampleValueOfType f.typ = (generateExample e).map (fun x => Value.arr [x]) := by
    rcases hty with h | ⟨k, h⟩
    · rw [h, exampleValueOfType_slice]
    · rw [h, exampleValueOfType_array]
  refine ⟨?_, ?_, ?_⟩
  · intro v hv
    rw [hobj, hlook, hslice, hv]
    rfl
  · intro hv
    rw [hobj, hlook, hslice, hv]
    rfl
  · intro k pn he
    rw [he, generateExample.eq_def]

/-- C7 witness at the concrete struct `S { Xs []int }`. -/
theorem C7_witness :
    (∀ v, generateExample (.primT .intK "int") = some v →
      exampleObjLookup (generateExample (.structT "S" "pkg" "pkg.S" [sampleSliceField])) "Xs" =
        some (Value.arr [v])) ∧
    (generateExample (.primT .intK "int") = none →
      exampleObjLookup (generateExample (.structT "S" "pkg" "pkg.S" [sampleSliceField])) "Xs" = none) ∧
    (∀ (k : GoKind) (pn : String), (.primT .intK "int" : GoType) = .primT k pn →
      generateExample (.primT .intK "int") = none) :=
  C7_array_member_example "S" "pkg" "pkg.S" [sampleSliceField] sampleSliceField
    (.primT .intK "int") "Xs" (List.mem_cons_self _ _) rfl (by decide)
    (Or.inl rfl) (by decide)

/-- C8 witness at a concrete negative status code. -/
theorem C8_witness :
    StatusCodeFromString (StatusCodeToString (-17)) = some (-17) :=
  (C8_status_code_conversion.2.2.1 (-17))

/-- C9 witness of the amended accumulation law at concrete inputs. -/
theorem C9_witness :
    mapLookup ((Generate (Generate (NewGenerator sampleInfo) [sampleRoute]).1 []).2.components.schemas) "A" =
      orOpt
        (mapLookup ((Generate (NewGenerator sampleInfo) []).2.components.schemas) "A")
        (mapLookup ((Generate (NewGenerator sampleInfo) [sampleRoute]).2.components.schemas) "A") :=
  C9_component_table_accumulates sampleInfo [sampleRoute] [] "A"

end GoRouter
